import Mathlib

/-
  Verification of the brew-news feed ingestion and normalization pipeline.

  The TypeScript sources (src/app/actions.ts, src/app/page.tsx,
  src/ai/flows/summarize-release-notes-flow.ts) are shallowly embedded here.
  Strings are modelled as `List Char`; the regular expressions used by the
  code are all of the restricted forms `tag([\s\S]*?)closetag`, `<[^>]*>?`,
  or literal global replacement, and are modelled by explicit scanning
  functions with the same first-match / non-overlapping semantics.
  Bounded recursion that consumes a non-constant number of characters per
  step is written with an explicit fuel argument initialised to the length
  of the scanned string, which is always sufficient because every step
  consumes at least one character.
-/

namespace BrewNews

/-- JS `String.prototype.includes(pat)`: true iff `pat` occurs contiguously. -/
def containsSub (pat : List Char) : List Char → Bool
  | [] => pat.isEmpty
  | c :: rest => pat.isPrefixOf (c :: rest) || containsSub pat rest

/-- The whitespace characters stripped by JS `String.prototype.trim`
(ASCII subset; the sources never produce the exotic Unicode spaces). -/
def isJsSpace (c : Char) : Bool := c = ' ' || c = '\t' || c = '\n' || c = '\r'

/-- JS `String.prototype.trim`. -/
def trimL (s : List Char) : List Char :=
  ((s.dropWhile isJsSpace).reverse.dropWhile isJsSpace).reverse

/-- JS `String.prototype.replace(/pat/g, rep)` for a literal pattern `pat`:
replace non-overlapping occurrences left to right, never rescanning the
replacement.  Fuel-driven; each step consumes at least one character, so
fuel `s.length` is sufficient (the sources only use non-empty patterns). -/
def replaceAllAux (pat rep : List Char) : Nat → List Char → List Char
  | _, [] => []
  | 0, s => s
  | fuel + 1, c :: rest =>
    if pat.isPrefixOf (c :: rest) then
      rep ++ replaceAllAux pat rep fuel (rest.drop (pat.length - 1))
    else
      c :: replaceAllAux pat rep fuel rest

def replaceAllL (pat rep s : List Char) : List Char :=
  replaceAllAux pat rep s.length s

def entLt : List Char := ("&lt;").toList
def entGt : List Char := ("&gt;").toList
def entAmp : List Char := ("&amp;").toList
def entQuot : List Char := ("&quot;").toList
def entApos039 : List Char := ("&#039;").toList
def entApos39 : List Char := ("&#39;").toList
def chLt : List Char := [Char.ofNat 60]
def chGt : List Char := [Char.ofNat 62]
def chAmp : List Char := [Char.ofNat 38]
def chQuot : List Char := [Char.ofNat 34]
def chApos : List Char := [Char.ofNat 39]

/-- `decodeHtmlEntities` from src/app/actions.ts lines 29-38: six sequential
global literal replacements, applied in source order. -/
def decodeHtmlEntities (text : List Char) : List Char :=
  replaceAllL entApos39 chApos
    (replaceAllL entApos039 chApos
      (replaceAllL entQuot chQuot
        (replaceAllL entAmp chAmp
          (replaceAllL entGt chGt
            (replaceAllL entLt chLt text)))))

/-- JS `String.prototype.split(sep)` for a literal non-empty separator:
split at non-overlapping occurrences left to right.  Fuel-driven as above. -/
def splitOnAux (sep : List Char) : Nat → List Char → List (List Char)
  | _, [] => [[]]
  | 0, s => [s]
  | fuel + 1, c :: rest =>
    if sep.isPrefixOf (c :: rest) && !sep.isEmpty then
      [] :: splitOnAux sep fuel (rest.drop (sep.length - 1))
    else
      match splitOnAux sep fuel rest with
      | [] => [[c]]
      | p :: ps => (c :: p) :: ps

def splitOnL (sep s : List Char) : List (List Char) :=
  splitOnAux sep s.length s

/-- Number of non-overlapping occurrences of `pat`, scanning left to right
(the occurrences found by a JS global regex for the literal `pat`). -/
def countOccsAux (pat : List Char) : Nat → List Char → Nat
  | _, [] => 0
  | 0, _ => 0
  | fuel + 1, c :: rest =>
    if pat.isPrefixOf (c :: rest) && !pat.isEmpty then
      countOccsAux pat fuel (rest.drop (pat.length - 1)) + 1
    else
      countOccsAux pat fuel rest

def countOccs (pat s : List Char) : Nat := countOccsAux pat s.length s

/-- Remainder of `s` after the first occurrence of `pat`; `none` if `pat`
does not occur. -/
def dropThroughInfix (pat : List Char) : List Char → Option (List Char)
  | [] => if pat.isEmpty then some [] else none
  | c :: rest =>
    if pat.isPrefixOf (c :: rest) then some ((c :: rest).drop pat.length)
    else dropThroughInfix pat rest

/-- Text of `s` strictly before the first occurrence of `pat`; `none` if
`pat` does not occur. -/
def takeUntilInfix (pat : List Char) : List Char → Option (List Char)
  | [] => if pat.isEmpty then some [] else none
  | c :: rest =>
    if pat.isPrefixOf (c :: rest) then some []
    else (takeUntilInfix pat rest).map (fun t => c :: t)

/-- First match of the regex `openT([\s\S]*?)closeT` (both tags literal):
group 1 is the text between the first occurrence of `openT` and the first
occurrence of `closeT` after it. -/
def matchBetween (openT closeT s : List Char) : Option (List Char) :=
  (dropThroughInfix openT s).bind (takeUntilInfix closeT)

/-- Remainder of `s` after the first occurrence of the character `c`. -/
def dropThroughChar (c : Char) : List Char → Option (List Char)
  | [] => none
  | x :: rest => if x = c then some rest else dropThroughChar c rest

/-- First match of `openStart[^>]*>([\s\S]*?)closeT` (used for the
Atom `<content[^>]*>` tag): skip past the first occurrence of `openStart`,
then past the next character `>`, then take group 1 up to `closeT`. -/
def matchLooseTag (openStart closeT s : List Char) : Option (List Char) :=
  (dropThroughInfix openStart s).bind
    (fun r => (dropThroughChar (Char.ofNat 62) r).bind (takeUntilInfix closeT))

/-- All matches of the global regex `openT([\s\S]*?)closeT`: the full
matched substrings (tags included), scanning resumes after each match.
Fuel-driven; each found block consumes at least `closeT.length ≥ 1`
characters, so fuel `s.length` is sufficient for the non-empty tags used. -/
def extractBlocksAux (openT closeT : List Char) : Nat → List Char → List (List Char)
  | 0, _ => []
  | fuel + 1, s =>
    match dropThroughInfix openT s with
    | none => []
    | some afterOpen =>
      match takeUntilInfix closeT afterOpen with
      | none => []
      | some inner =>
        (openT ++ inner ++ closeT) ::
          extractBlocksAux openT closeT fuel (afterOpen.drop (inner.length + closeT.length))

def extractBlocks (openT closeT s : List Char) : List (List Char) :=
  extractBlocksAux openT closeT s.length s

/-- JS `String.prototype.replace(/<[^>]*>?/gm, '')`: each match starts at a
`<` and extends up to and including the next `>` (or to the end of the
string when no `>` follows).  Implemented as a two-state scan; the flag
records whether the scanner is inside a match. -/
def stripTagsGo : Bool → List Char → List Char
  | _, [] => []
  | false, c :: rest =>
    if c = '<' then stripTagsGo true rest else c :: stripTagsGo false rest
  | true, c :: rest =>
    if c = '>' then stripTagsGo false rest else stripTagsGo true rest

def stripTags (s : List Char) : List Char := stripTagsGo false s

/-- JS `Array.prototype.map((x, index) => f index x)`, with the index of the
first element given explicitly. -/
def mapIdxFrom (f : Nat → α → β) : Nat → List α → List β
  | _, [] => []
  | i, a :: as => f i a :: mapIdxFrom f (i + 1) as

/-- Decimal rendering of a natural number (JS template `${index}`). -/
def natToChars (n : Nat) : List Char := Nat.toDigits 10 n

/-! ## Data model (src/app/actions.ts) -/

/-- The `FeedItem` interface of src/app/actions.ts lines 16-25.  Optional
fields are `Option`; `none` models an absent (`undefined`) field. -/
structure FeedItem where
  title : List Char
  link : List Char
  description : List Char
  pubDate : List Char
  summary : Option (List (List Char)) := none
  product : Option (List Char) := none
  subcomponent : Option (List Char) := none
  category : Option (List Char) := none
deriving DecidableEq, Repr

/-- The `{ data?, error? }` result shape returned by the fetch actions. -/
structure FetchResult where
  data? : Option (List FeedItem) := none
  error? : Option (List Char) := none
deriving DecidableEq, Repr

/-! ### Tag and message literals used by the pipeline -/

def feedMarker : List Char := ("<feed").toList
def rssMarker : List Char := ("<rss").toList
def entryOpen : List Char := ("<entry>").toList
def entryClose : List Char := ("</entry>").toList
def itemOpen : List Char := ("<item>").toList
def itemClose : List Char := ("</item>").toList
def titleOpen : List Char := ("<title>").toList
def titleClose : List Char := ("</title>").toList
def linkOpen : List Char := ("<link>").toList
def linkClose : List Char := ("</link>").toList
def pubDateOpen : List Char := ("<pubDate>").toList
def pubDateClose : List Char := ("</pubDate>").toList
def updatedOpen : List Char := ("<updated>").toList
def updatedClose : List Char := ("</updated>").toList
def descOpen : List Char := ("<description>").toList
def descClose : List Char := ("</description>").toList
def contentOpenStart : List Char := ("<content").toList
def contentClose : List Char := ("</content>").toList
def cdataOpen : List Char := ("<![CDATA[").toList
def h3Open : List Char := ("<h3>").toList
def h3Close : List Char := ("</h3>").toList
def hashStr : List Char := ("#").toList
def dashStr : List Char := ("-").toList
def noDescStr : List Char := ("No description available.").toList
def errInvalidFeed : List Char :=
  ("The content does not appear to be a valid RSS or Atom feed.").toList

/-- The CDATA handling applied to a matched description in
src/app/actions.ts lines 148-151: trim, and when the text starts with
`<![CDATA[`, take `slice(9, -3)` and trim again. -/
def cdataStrip (s : List Char) : List Char :=
  if cdataOpen.isPrefixOf s then
    trimL ((s.drop 9).take ((s.drop 9).length - 3))
  else s

/-! ## Compound-entry splitter (src/app/actions.ts lines 153-174) -/

/-- The per-entry item construction of the `flatMap` body: when the
description contains `<h3>`, split on each occurrence, discard the part
before the first marker (`slice(1)`), and derive one item per section with
the link suffixed `-index`; otherwise pass the entry through as a single
item.  `entryTitle`, `link`, `pubDate`, `description` are the values
extracted from the block (already trimmed / CDATA-handled). -/
def splitEntry (entryTitle link pubDate description : List Char) : List FeedItem :=
  if containsSub h3Open description then
    mapIdxFrom
      (fun index subItem =>
        { title :=
            match takeUntilInfix h3Close subItem with
            | some subT => decodeHtmlEntities (trimL subT)
            | none => decodeHtmlEntities entryTitle
          link := link ++ dashStr ++ natToChars index
          pubDate := pubDate
          description := decodeHtmlEntities (h3Open ++ subItem) })
      0 ((splitOnL h3Open description).drop 1)
  else
    [{ title := decodeHtmlEntities entryTitle
       link := link
       pubDate := pubDate
       description := decodeHtmlEntities description }]

/-! ## Feed format parser (src/app/actions.ts lines 113-174) -/

/-- Per-block field extraction and splitting, src/app/actions.ts lines
131-174.  The Atom link alternation regex
`<link[^>]*rel="alternate"[^>]*href="([^"]+)"|<link[^>]*href="([^"]+)"`
is abstracted as the parameter `atomLink` (no claim depends on it); every
other matcher is modelled concretely. -/
def processBlock (atomLink : List Char → Option (List Char)) (isAtom : Bool)
    (nowStr : List Char) (block : List Char) : List FeedItem :=
  let entryTitle :=
    match matchBetween titleOpen titleClose block with
    | some t => trimL t
    | none => []
  let link :=
    if isAtom then
      match atomLink block with
      | some l => trimL l
      | none => hashStr
    else
      match matchBetween linkOpen linkClose block with
      | some l => trimL l
      | none => hashStr
  let pubDate :=
    if isAtom then
      match matchBetween updatedOpen updatedClose block with
      | some p => trimL p
      | none => nowStr
    else
      match matchBetween pubDateOpen pubDateClose block with
      | some p => trimL p
      | none => nowStr
  let description0 :=
    if isAtom then
      match matchLooseTag contentOpenStart contentClose block with
      | some d => trimL d
      | none => noDescStr
    else
      match matchBetween descOpen descClose block with
      | some d => trimL d
      | none => noDescStr
  splitEntry entryTitle link pubDate (cdataStrip description0)

/-- The parse stage of `fetchRssFeed` (src/app/actions.ts lines 113-174):
dialect detection, block extraction, the empty/invalid cases, and per-block
processing.  `nowStr` models `new Date().toUTCString()`. -/
def parseFeedDocument (atomLink : List Char → Option (List Char))
    (nowStr : List Char) (xmlText : List Char) :
    Except (List Char) (List FeedItem) :=
  let isAtom := containsSub feedMarker xmlText
  let itemBlocks :=
    if isAtom then extractBlocks entryOpen entryClose xmlText
    else extractBlocks itemOpen itemClose xmlText
  if itemBlocks.isEmpty then
    if !isAtom && !containsSub rssMarker xmlText then Except.error errInvalidFeed
    else Except.ok []
  else
    Except.ok (itemBlocks.flatMap (processBlock atomLink isAtom nowStr))

/-! ## Source fetch orchestrator aggregation (src/app/page.tsx lines 31-50) -/

def feedMsgPre : List Char := ("Feed ").toList ++ [Char.ofNat 34]
def feedMsgMid : List Char := [Char.ofNat 34] ++ (": ").toList

/-- The user-facing batch error message `Feed "url": error`. -/
def feedErrMsg (url err : List Char) : List Char :=
  feedMsgPre ++ url ++ feedMsgMid ++ err

/-- The aggregation loop of `handleFetch`: push every source's `data` into
`allItems` in source-list order and one message per `error` into
`allErrors`. -/
def aggregateResults (urls : List (List Char)) (results : List FetchResult) :
    List FeedItem × List (List Char) :=
  ((urls.zip results).flatMap (fun p => p.2.data?.getD []),
   (urls.zip results).filterMap (fun p => p.2.error?.map (feedErrMsg p.1)))

/-! ## Recency classifier, weekly policy (src/app/page.tsx lines 57-85) -/

def msPerDay : Int := 86400000

/-- date-fns `differenceInDays(now, itemDate)`: the number of whole days
between the instants, truncated toward zero (DST shifts abstracted away);
instants are in epoch milliseconds. -/
def differenceInDays (laterMs earlierMs : Int) : Int :=
  (laterMs - earlierMs).tdiv msPerDay

/-- The whole-day age of an item: `none` when `pubDate` is missing (empty,
JS falsy) or unparseable (`parseDate` returns `none`, modelling a `NaN`
date). -/
def itemAge (parseDate : List Char → Option Int) (now : Int) (it : FeedItem) :
    Option Int :=
  if it.pubDate.isEmpty then none
  else
    match parseDate it.pubDate with
    | none => none
    | some t => some (differenceInDays now t)

/-- The bucket-filling `forEach` of src/app/page.tsx lines 62-77:
`0 ≤ d ≤ 7` pushes into this week, `7 < d ≤ 14` into last week, anything
else (including missing/unparseable dates) into neither. -/
def weeklyBucketsRaw (parseDate : List Char → Option Int) (now : Int) :
    List FeedItem → List FeedItem × List FeedItem
  | [] => ([], [])
  | it :: rest =>
    let (tw, lw) := weeklyBucketsRaw parseDate now rest
    match itemAge parseDate now it with
    | none => (tw, lw)
    | some d =>
      if 0 ≤ d && d ≤ 7 then (it :: tw, lw)
      else if 7 < d && d ≤ 14 then (tw, it :: lw)
      else (tw, lw)

/-- The numeric sort key `new Date(pubDate).getTime()` (0 for unparseable
dates; every bucketed item has a parseable date). -/
def itemTime (parseDate : List Char → Option Int) (it : FeedItem) : Int :=
  (parseDate it.pubDate).getD 0

/-- Stable insertion into a list kept sorted by descending key. -/
def insertDesc (key : FeedItem → Int) (x : FeedItem) : List FeedItem → List FeedItem
  | [] => [x]
  | y :: ys => if key y < key x then x :: y :: ys else y :: insertDesc key x ys

/-- The `sort((a, b) => timeB - timeA)` call: a stable sort by descending
date, modelled by insertion sort. -/
def sortDesc (key : FeedItem → Int) : List FeedItem → List FeedItem
  | [] => []
  | x :: xs => insertDesc key x (sortDesc key xs)

/-- `thisWeekItems` / `lastWeekItems` of src/app/page.tsx lines 57-85. -/
def weeklyBuckets (parseDate : List Char → Option Int) (now : Int)
    (items : List FeedItem) : List FeedItem × List FeedItem :=
  let (tw, lw) := weeklyBucketsRaw parseDate now items
  (sortDesc (itemTime parseDate) tw, sortDesc (itemTime parseDate) lw)

/-! ## Summarization orchestrator
(src/ai/flows/summarize-release-notes-flow.ts and
src/app/actions.ts lines 204-220) -/

/-- The structured output of the summarization flow
(`SummarizeReleaseNoteOutputSchema`). -/
structure SummaryOutput where
  product : List Char
  subcomponent : Option (List Char) := none
  title : List Char
  pubDate : List Char
  summary : List (List Char)
deriving DecidableEq, Repr

def unknownStr : List Char := ("Unknown").toList
def summaryUnavailableStr : List Char := ("Summary unavailable").toList
def titleUnavailableStr : List Char := ("Title unavailable").toList
def ellipsisStr : List Char := ("...").toList
def errorSummarizingStr : List Char := ("Error summarizing content.").toList

/-- `input.htmlContent.replace(/<[^>]*>?/gm, '').trim()`. -/
def stripMarkup (html : List Char) : List Char := trimL (stripTags html)

/-- `summarizeReleaseNoteFlow` (summarize-release-notes-flow.ts lines
75-111).  The external model call is the parameter `promptCall`:
`.error ()` models a thrown error, `.ok none` a null `output`, and
`.ok (some o)` a structured result.  `today` models
`new Date().toISOString().split('T')[0]`.  An empty string models a falsy
(absent) field of the model output. -/
def summarizeReleaseNoteFlow
    (promptCall : List Char → Except Unit (Option SummaryOutput))
    (today : List Char) (htmlContent : List Char) : SummaryOutput :=
  let strippedText := stripMarkup htmlContent
  if strippedText.length < 50 then
    { product := unknownStr
      title := summaryUnavailableStr
      pubDate := today
      summary := [strippedText] }
  else
    match promptCall htmlContent with
    | Except.ok (some output) =>
      { product := if output.product.isEmpty then unknownStr else output.product
        subcomponent := output.subcomponent
        title := if output.title.isEmpty then titleUnavailableStr else output.title
        pubDate := if output.pubDate.isEmpty then today else output.pubDate
        summary := if output.summary.isEmpty then [strippedText] else output.summary }
    | _ =>
      let fallbackSummary :=
        if 250 < strippedText.length then strippedText.take 250 ++ ellipsisStr
        else strippedText
      { product := unknownStr
        title := summaryUnavailableStr
        pubDate := today
        summary := [fallbackSummary] }

/-- One task of the `summaryPromises` fan-out (src/app/actions.ts lines
204-218): on success overwrite summary/product/subcomponent/title/pubDate
with the flow's result, on a thrown error (`.error ()`, e.g. a timeout of
the whole flow) set the single-element fallback summary and leave every
other field as parsed. -/
def enrichItem (summarize : List Char → Except Unit SummaryOutput)
    (item : FeedItem) : FeedItem :=
  match summarize item.description with
  | Except.ok result =>
    { item with
      summary := some result.summary
      product := some result.product
      subcomponent := result.subcomponent
      title := result.title
      pubDate := result.pubDate }
  | Except.error _ => { item with summary := some [errorSummarizingStr] }

/-- The whole `Promise.all(summaryPromises)` barrier: each item is enriched
independently and takes exactly one of the two branches. -/
def enrichItems (summarize : List Char → Except Unit SummaryOutput)
    (items : List FeedItem) : List FeedItem :=
  items.map (enrichItem summarize)

/-! ## Cache/dedup coordinator (src/app/actions.ts lines 268-310) -/

/-- UTF-8 encoding of one character (what `Buffer.from(link)` produces per
code point). -/
def utf8Bytes (c : Char) : List Nat :=
  let n := c.toNat
  if n < 128 then [n]
  else if n < 2048 then [192 + n / 64, 128 + n % 64]
  else if n < 65536 then [224 + n / 4096, 128 + n / 64 % 64, 128 + n % 64]
  else [240 + n / 262144, 128 + n / 4096 % 64, 128 + n / 64 % 64, 128 + n % 64]

def b64Alphabet : List Char :=
  ("ABCDEFGHIJKLMNOPQRSTUVWXYZabcdefghijklmnopqrstuvwxyz0123456789+/").toList

def b64Char (n : Nat) : Char := b64Alphabet.getD n 'A'

/-- Standard base64 of a byte list, '=' padded (`toString('base64')`). -/
def base64Chunks : List Nat → List Char
  | [] => []
  | [b1] => [b64Char (b1 / 4), b64Char (b1 % 4 * 16), '=', '=']
  | [b1, b2] => [b64Char (b1 / 4), b64Char (b1 % 4 * 16 + b2 / 16), b64Char (b2 % 16 * 4), '=']
  | b1 :: b2 :: b3 :: rest =>
    b64Char (b1 / 4) :: b64Char (b1 % 4 * 16 + b2 / 16) ::
      b64Char (b2 % 16 * 4 + b3 / 64) :: b64Char (b3 % 64) :: base64Chunks rest

/-- The document id of src/app/actions.ts line 299:
`Buffer.from(item.link).toString('base64')` with `+` replaced by `-`,
`/` replaced by `_`, and `=` removed. -/
def contentId (link : List Char) : List Char :=
  ((base64Chunks (link.flatMap utf8Bytes)).map
      (fun c => if c = '+' then '-' else if c = '/' then '_' else c)).filter
    (fun c => c ≠ '=')

/-- The Firestore `feedItems` collection, as a list of (docId, document)
records. -/
abbrev StoreState := List (List Char × FeedItem)

/-- `batch.set(docRef, item)`: writing under an existing id overwrites that
record, otherwise a new record is appended. -/
def storeSet (st : StoreState) (key : List Char) (item : FeedItem) : StoreState :=
  if st.any (fun kv => kv.1 == key) then
    st.map (fun kv => if kv.1 == key then (key, item) else kv)
  else st ++ [(key, item)]

/-- The write phase of `storeFeedItems` (lines 292-303): delete every old
record, then set one record per item keyed by `contentId` of its link. -/
def storeFeedItemsWrite (items : List FeedItem) : StoreState :=
  items.foldl (fun st it => storeSet st (contentId it.link) it) []

def lookupStore (st : StoreState) (key : List Char) : Option FeedItem :=
  match st.find? (fun kv => kv.1 == key) with
  | some kv => some kv.2
  | none => none

/-! ## Null-db degradation (src/app/actions.ts lines 268-271, 286-289)
and the cache decision of `loadFeeds` (src/app/page.tsx second revision,
lines 209-219). -/

def errStoreRead : List Char := ("Could not retrieve stored feed items.").toList

/-- `getStoredFeedItems`: `db` is `none` when Firestore is not configured;
otherwise the snapshot read either succeeds with the stored items or
fails (`.error ()`), which is surfaced as a storage error. -/
def getStoredFeedItems (db : Option (Except Unit (List FeedItem))) : FetchResult :=
  match db with
  | none => { data? := some [] }
  | some (Except.ok items) => { data? := some items }
  | some (Except.error _) => { error? := some errStoreRead }

/-- `storeFeedItems`: result flag and the collection contents after the
call (`none` = no store exists / nothing written). -/
def storeFeedItemsOp (db : Option StoreState) (items : List FeedItem) :
    Bool × Option StoreState :=
  match db with
  | none => (true, none)
  | some _ => (true, some (storeFeedItemsWrite items))

/-- The cache decision in `loadFeeds`: serve the stored snapshot only when
the read produced a non-empty item list; otherwise fall through to the
fresh fetch of every feed. -/
def loadFeedsUsesCache (stored : FetchResult) : Bool :=
  match stored.data? with
  | some items => !items.isEmpty
  | none => false

/-! ## Generic lemmas about the scanning primitives -/

theorem isPrefixOf_eq_true_iff (l s : List Char) :
    l.isPrefixOf s = true ↔ ∃ u, s = l ++ u := by
  rw [List.isPrefixOf_iff_prefix]
  constructor
  · rintro ⟨u, hu⟩
    exact ⟨u, hu.symm⟩
  · rintro ⟨u, hu⟩
    exact ⟨u, hu.symm⟩

theorem isPrefixOf_append_self (l t : List Char) : l.isPrefixOf (l ++ t) = true :=
  (isPrefixOf_eq_true_iff l (l ++ t)).2 ⟨t, rfl⟩

theorem containsSub_cons_or (p : List Char) (c : Char) (rest : List Char) :
    containsSub p (c :: rest) = (p.isPrefixOf (c :: rest) || containsSub p rest) := rfl

theorem containsSub_of_isPrefixOf {p s : List Char} (h : p.isPrefixOf s = true) :
    containsSub p s = true := by
  cases s with
  | nil =>
    rcases (isPrefixOf_eq_true_iff p []).1 h with ⟨u, hu⟩
    rcases List.append_eq_nil.1 hu.symm with ⟨rfl, rfl⟩
    rfl
  | cons c rest => rw [containsSub_cons_or, h, Bool.true_or]

theorem containsSub_append_mid (m a b : List Char) :
    containsSub m (a ++ m ++ b) = true := by
  induction a with
  | nil =>
    simp only [List.nil_append]
    exact containsSub_of_isPrefixOf (isPrefixOf_append_self m b)
  | cons c cs ih =>
    rw [List.cons_append, List.cons_append, containsSub_cons_or]
    rw [List.append_assoc] at ih ⊢
    rw [ih, Bool.or_true]

/-- A pattern whose first character is `<` cannot start at a character that
is not `<`. -/
theorem isPrefixOf_false_of_head_ne {pt s : List Char} {c : Char} (hc : c ≠ '<') :
    ('<' :: pt).isPrefixOf (c :: s) = false := by
  rw [Bool.eq_false_iff]
  intro h
  rcases (isPrefixOf_eq_true_iff _ _).1 h with ⟨u, hu⟩
  rw [List.cons_append] at hu
  exact hc (List.cons_eq_cons.1 hu).1

theorem containsSub_cons_ne {pt s : List Char} {c : Char} (hc : c ≠ '<') :
    containsSub ('<' :: pt) (c :: s) = containsSub ('<' :: pt) s := by
  simp [containsSub_cons_or, isPrefixOf_false_of_head_ne hc]

/-- No occurrence of a `<`-headed pattern inside `<`-free text. -/
theorem containsSub_eq_false_of_no_lt {pt a : List Char} (ha : '<' ∉ a) :
    containsSub ('<' :: pt) a = false := by
  induction a with
  | nil => rfl
  | cons c rest ih =>
    have hc : c ≠ '<' := fun h => ha (h ▸ List.mem_cons_self c rest)
    rw [containsSub_cons_ne hc]
    exact ih fun h => ha (List.mem_cons_of_mem c h)

/-- Scanning for a `<`-headed pattern passes through `<`-free text. -/
theorem containsSub_append_of_no_lt {pt : List Char} {a : List Char} (b : List Char)
    (ha : '<' ∉ a) :
    containsSub ('<' :: pt) (a ++ b) = containsSub ('<' :: pt) b := by
  induction a with
  | nil => rfl
  | cons c rest ih =>
    have hc : c ≠ '<' := fun h => ha (h ▸ List.mem_cons_self c rest)
    rw [List.cons_append, containsSub_cons_ne hc]
    exact ih fun h => ha (List.mem_cons_of_mem c h)

/-- Scanning for `'<' :: p1 :: pt` passes over a concrete tag
`'<' :: t1 :: tr` whose second character differs and whose tail contains no
further `<`. -/
theorem containsSub_tag_skip {p1 : Char} {pt : List Char} {t1 : Char} {tr : List Char}
    (b : List Char) (h1 : p1 ≠ t1) (htr : '<' ∉ tr) (ht1 : t1 ≠ '<') :
    containsSub ('<' :: p1 :: pt) (('<' :: t1 :: tr) ++ b)
      = containsSub ('<' :: p1 :: pt) b := by
  rw [List.cons_append, List.cons_append, containsSub_cons_or]
  have hp : ('<' :: p1 :: pt).isPrefixOf ('<' :: t1 :: (tr ++ b)) = false := by
    simp [List.isPrefixOf, fun h => h1 h]
  rw [hp]
  simp only [Bool.false_or]
  rw [containsSub_cons_ne ht1]
  exact containsSub_append_of_no_lt b htr

/-- Key fact behind first-match extraction: a pattern of the shape
`'<' :: pt` with no further `<` inside cannot match strictly before its
own planted occurrence, provided it does not occur in the text before it.
(A match starting inside `c :: d'` would either lie entirely inside it,
contradicting `hc`, or straddle the boundary, forcing a `<` inside `pt`.) -/
theorem not_isPrefixOf_before_planted {pt : List Char} (hpt : '<' ∉ pt)
    (c : Char) (d' r : List Char)
    (hc : containsSub ('<' :: pt) (c :: d') = false) :
    ('<' :: pt).isPrefixOf ((c :: d') ++ ('<' :: pt) ++ r) = false := by
  set p : List Char := '<' :: pt with hpdef
  rw [Bool.eq_false_iff]
  intro h
  rcases (isPrefixOf_eq_true_iff _ _).1 h with ⟨u, hu⟩
  rcases le_or_lt p.length (c :: d').length with hle | hlt
  · -- the match would lie entirely inside `c :: d'`
    have htake : ((c :: d') ++ (p ++ r)).take p.length = (c :: d').take p.length := by
      rw [List.take_append_eq_append_take, Nat.sub_eq_zero_of_le hle,
        List.take_zero, List.append_nil]
    have htake2 : ((c :: d') ++ (p ++ r)).take p.length = p := by
      rw [List.append_assoc] at hu
      rw [hu, List.take_append_eq_append_take, List.take_length, Nat.sub_self,
        List.take_zero, List.append_nil]
    have hp_take : (c :: d').take p.length = p := htake.symm.trans htake2
    have hpre : p.isPrefixOf (c :: d') = true := by
      rw [isPrefixOf_eq_true_iff]
      refine ⟨(c :: d').drop p.length, ?_⟩
      conv_lhs => rw [← List.take_append_drop p.length (c :: d')]
      exact congrArg (fun x => x ++ (c :: d').drop p.length) hp_take
    rw [containsSub_of_isPrefixOf hpre] at hc
    exact Bool.true_eq_false.mp hc
  · -- the match would straddle the boundary, forcing `<` inside `pt`
    have hdrop : ((c :: d') ++ (p ++ r)).drop (c :: d').length = p ++ r := by
      rw [List.drop_append_eq_append_drop, List.drop_length, Nat.sub_self,
        List.drop_zero, List.nil_append]
    have hdrop2 : p ++ r = p.drop (c :: d').length ++ u := by
      rw [List.append_assoc] at hu
      rw [← hdrop, hu, List.drop_append_eq_append_drop,
        Nat.sub_eq_zero_of_le (Nat.le_of_lt hlt), List.drop_zero]
    have hne : p.drop (c :: d').length ≠ [] := by
      intro hnil
      rw [List.drop_eq_nil_iff] at hnil
      exact Nat.not_le_of_lt hlt hnil
    have hhead : (p ++ r).head? = some '<' := by
      rw [hpdef, List.cons_append, List.head?_cons]
    have hhead2 : (p.drop (c :: d').length ++ u).head? = p[(c :: d').length]? := by
      rw [List.head?_append_of_ne_nil _ hne, List.head?_drop]
    have hgt : p[(c :: d').length]? = some '<' := by
      rw [← hhead2, ← hdrop2, hhead]
    have : pt[d'.length]? = some '<' := by
      rw [hpdef] at hgt
      simpa [List.getElem?_cons_succ, List.length_cons] using hgt
    exact hpt (List.getElem?_mem this)

/-- First-match extraction: the text strictly before the planted occurrence
of a `<`-headed, otherwise `<`-free pattern is returned exactly, provided
the pattern does not occur in that text. -/
theorem takeUntilInfix_planted {pt : List Char} (hpt : '<' ∉ pt)
    (d r : List Char) (hc : containsSub ('<' :: pt) d = false) :
    takeUntilInfix ('<' :: pt) (d ++ ('<' :: pt) ++ r) = some d := by
  induction d with
  | nil =>
    have hpre := isPrefixOf_append_self ('<' :: pt) r
    rw [List.nil_append, List.cons_append]
    rw [List.cons_append] at hpre
    simp only [takeUntilInfix, hpre, if_true]
  | cons c d' ih =>
    have hstep := not_isPrefixOf_before_planted hpt c d' r hc
    have hc' : containsSub ('<' :: pt) d' = false := by
      rw [containsSub_cons_or, Bool.or_eq_false_iff] at hc
      exact hc.2
    rw [List.cons_append, List.cons_append]
    simp only [takeUntilInfix]
    rw [List.cons_append, List.cons_append] at hstep
    rw [hstep]
    simp only [Bool.false_eq_true, if_false]
    rw [ih hc']
    rfl

/-- Companion to `takeUntilInfix_planted`: the remainder after the planted
occurrence. -/
theorem dropThroughInfix_planted {pt : List Char} (hpt : '<' ∉ pt)
    (d r : List Char) (hc : containsSub ('<' :: pt) d = false) :
    dropThroughInfix ('<' :: pt) (d ++ ('<' :: pt) ++ r) = some r := by
  induction d with
  | nil =>
    have hpre := isPrefixOf_append_self ('<' :: pt) r
    have hdrop : (('<' :: pt) ++ r).drop ('<' :: pt).length = r := List.drop_left _ _
    rw [List.nil_append, List.cons_append]
    rw [List.cons_append] at hpre hdrop
    simp only [dropThroughInfix, hpre, if_true, hdrop]
  | cons c d' ih =>
    have hstep := not_isPrefixOf_before_planted hpt c d' r hc
    have hc' : containsSub ('<' :: pt) d' = false := by
      rw [containsSub_cons_or, Bool.or_eq_false_iff] at hc
      exact hc.2
    rw [List.cons_append, List.cons_append]
    simp only [dropThroughInfix]
    rw [List.cons_append, List.cons_append] at hstep
    rw [hstep]
    simp only [Bool.false_eq_true, if_false]
    exact ih hc'

/-- Text in which a pattern does not occur is left unchanged by global
replacement, at any fuel. -/
theorem replaceAllAux_no_occurrence {pat rep : List Char} :
    ∀ (fuel : Nat) (s : List Char), containsSub pat s = false →
      replaceAllAux pat rep fuel s = s
  | _, [], _ => by cases ‹Nat› <;> rfl
  | 0, _ :: _, _ => rfl
  | fuel + 1, c :: rest, h => by
    have hor := h
    rw [containsSub_cons_or, Bool.or_eq_false_iff] at hor
    rw [replaceAllAux, hor.1]
    simp only [Bool.false_eq_true, if_false]
    rw [replaceAllAux_no_occurrence fuel rest hor.2]

theorem replaceAllL_no_occurrence {pat rep s : List Char}
    (h : containsSub pat s = false) : replaceAllL pat rep s = s :=
  replaceAllAux_no_occurrence s.length s h

/-- `splitOnAux` and `countOccsAux` walk the string in lockstep: the number
of parts always exceeds the number of separator occurrences by one. -/
theorem length_splitOnAux (sep : List Char) :
    ∀ (fuel : Nat) (s : List Char),
      (splitOnAux sep fuel s).length = countOccsAux sep fuel s + 1
  | _, [] => by cases ‹Nat› <;> rfl
  | 0, _ :: _ => rfl
  | fuel + 1, c :: rest => by
    rw [splitOnAux, countOccsAux]
    by_cases hp : (sep.isPrefixOf (c :: rest) && !sep.isEmpty) = true
    · rw [hp]
      simp only [if_true, List.length_cons]
      rw [length_splitOnAux sep fuel]
    · rw [Bool.not_eq_true] at hp
      rw [hp]
      simp only [Bool.false_eq_true, if_false]
      have hrec := length_splitOnAux sep fuel rest
      cases hsp : splitOnAux sep fuel rest with
      | nil => rw [hsp] at hrec; simp at hrec
      | cons p ps =>
        rw [hsp] at hrec
        simp only [List.length_cons] at hrec ⊢
        omega

theorem length_splitOnL (sep s : List Char) :
    (splitOnL sep s).length = countOccs sep s + 1 :=
  length_splitOnAux sep s.length s

theorem mapIdxFrom_length (f : Nat → α → β) :
    ∀ (i : Nat) (l : List α), (mapIdxFrom f i l).length = l.length
  | _, [] => rfl
  | i, _ :: as => by
    rw [mapIdxFrom, List.length_cons, List.length_cons, mapIdxFrom_length f (i + 1) as]

theorem mapIdxFrom_getElem? (f : Nat → α → β) :
    ∀ (i k : Nat) (l : List α), (mapIdxFrom f i l)[k]? = l[k]?.map (f (i + k))
  | _, _, [] => by simp [mapIdxFrom]
  | i, 0, a :: as => by simp [mapIdxFrom]
  | i, k + 1, a :: as => by
    rw [mapIdxFrom, List.getElem?_cons_succ, List.getElem?_cons_succ,
      mapIdxFrom_getElem? f (i + 1) k as]
    have : i + 1 + k = i + (k + 1) := by omega
    rw [this]

/-! ## Lemmas about the batch aggregation -/

theorem zip_flatMap_data (results : List FetchResult) :
    ∀ (urls : List (List Char)), urls.length = results.length →
      ((urls.zip results).flatMap fun p => p.2.data?.getD [])
        = (results.filterMap (fun r => r.data?)).flatten := by
  induction results with
  | nil => intro urls hlen; cases urls <;> simp_all
  | cons r rs ih =>
    intro urls hlen
    cases urls with
    | nil => simp at hlen
    | cons u us =>
      simp only [List.length_cons, Nat.succ_inj] at hlen
      rw [List.zip_cons_cons, List.flatMap_cons, List.filterMap_cons]
      cases hr : r.data? with
      | none => simp only [Option.getD_none, List.nil_append]; exact ih us hlen
      | some l =>
        simp only [Option.getD_some, List.flatten_cons]
        rw [ih us hlen]

theorem aggregate_items (urls : List (List Char)) (results : List FetchResult)
    (hlen : urls.length = results.length) :
    (aggregateResults urls results).1
      = (results.filterMap (fun r => r.data?)).flatten :=
  zip_flatMap_data results urls hlen

theorem zip_filterMap_errors (results : List FetchResult) :
    ∀ (urls : List (List Char)), urls.length = results.length →
      ((urls.zip results).filterMap
          (fun p => p.2.error?.map (feedErrMsg p.1))).length
        = results.countP (fun r => r.error?.isSome) := by
  induction results with
  | nil => intro urls hlen; cases urls <;> simp_all
  | cons r rs ih =>
    intro urls hlen
    cases urls with
    | nil => simp at hlen
    | cons u us =>
      simp only [List.length_cons, Nat.succ_inj] at hlen
      rw [List.zip_cons_cons]
      cases hr : r.error? with
      | none => simpa [hr] using ih us hlen
      | some e => simp [hr, ih us hlen]

theorem aggregate_errors_length (urls : List (List Char)) (results : List FetchResult)
    (hlen : urls.length = results.length) :
    (aggregateResults urls results).2.length
      = results.countP (fun r => r.error?.isSome) :=
  zip_filterMap_errors results urls hlen

theorem aggregate_errors_mem (urls : List (List Char)) (results : List FetchResult)
    {u e : List Char} {r : FetchResult}
    (hmem : (u, r) ∈ urls.zip results) (he : r.error? = some e) :
    feedErrMsg u e ∈ (aggregateResults urls results).2 := by
  unfold aggregateResults
  exact List.mem_filterMap.2 ⟨(u, r), hmem, by rw [he]; rfl⟩

/-! ## Lemmas about the weekly classifier -/

/-- The push condition of the this-week branch. -/
def inCurrentWeek (parseDate : List Char → Option Int) (now : Int)
    (it : FeedItem) : Bool :=
  match itemAge parseDate now it with
  | some d => 0 ≤ d && d ≤ 7
  | none => false

/-- The push condition of the last-week branch. -/
def inPreviousWeek (parseDate : List Char → Option Int) (now : Int)
    (it : FeedItem) : Bool :=
  match itemAge parseDate now it with
  | some d => 7 < d && d ≤ 14
  | none => false

theorem weeklyBucketsRaw_eq_filter (parseDate : List Char → Option Int)
    (now : Int) (items : List FeedItem) :
    weeklyBucketsRaw parseDate now items
      = (items.filter (inCurrentWeek parseDate now),
         items.filter (inPreviousWeek parseDate now)) := by
  induction items with
  | nil => rfl
  | cons it rest ih =>
    rw [weeklyBucketsRaw, ih]
    simp only [List.filter_cons]
    unfold inCurrentWeek inPreviousWeek
    cases hage : itemAge parseDate now it with
    | none => simp
    | some d =>
      by_cases h1 : (0 ≤ d && d ≤ 7) = true
      · have h2 : (7 < d && d ≤ 14) = false := by
          rw [Bool.and_eq_true, decide_eq_true_eq, decide_eq_true_eq] at h1
          simp only [Bool.and_eq_false_iff]
          left
          simpa using h1.2
        simp [h1, h2]
      · rw [Bool.not_eq_true] at h1
        by_cases h2 : (7 < d && d ≤ 14) = true
        · simp [h1, h2]
        · rw [Bool.not_eq_true] at h2
          simp [h1, h2]

theorem insertDesc_perm (key : FeedItem → Int) (x : FeedItem) (l : List FeedItem) :
    (insertDesc key x l).Perm (x :: l) := by
  induction l with
  | nil => rfl
  | cons y ys ih =>
    rw [insertDesc]
    by_cases h : key y < key x
    · simp [h]
    · simp only [h, if_false]
      exact (ih.cons y).trans (List.Perm.swap x y ys)

theorem sortDesc_perm (key : FeedItem → Int) (l : List FeedItem) :
    (sortDesc key l).Perm l := by
  induction l with
  | nil => rfl
  | cons x xs ih =>
    rw [sortDesc]
    exact (insertDesc_perm key x (sortDesc key xs)).trans (ih.cons x)

theorem insertDesc_sorted (key : FeedItem → Int) (x : FeedItem)
    {l : List FeedItem} (hl : l.Pairwise (fun a b => key b ≤ key a)) :
    (insertDesc key x l).Pairwise (fun a b => key b ≤ key a) := by
  induction l with
  | nil => simp [insertDesc]
  | cons y ys ih =>
    rw [insertDesc]
    rcases List.pairwise_cons.1 hl with ⟨hy, hys⟩
    by_cases h : key y < key x
    · simp only [h, if_true]
      refine List.pairwise_cons.2 ⟨?_, hl⟩
      intro z hz
      rcases List.mem_cons.1 hz with rfl | hz'
      · exact le_of_lt h
      · exact le_trans (hy z hz') (le_of_lt h)
    · simp only [h, if_false]
      refine List.pairwise_cons.2 ⟨?_, ih hys⟩
      intro z hz
      have hz2 := (insertDesc_perm key x ys).mem_iff.1 hz
      rcases List.mem_cons.1 hz2 with rfl | hz'
      · exact le_of_not_lt h
      · exact hy z hz'

theorem sortDesc_sorted (key : FeedItem → Int) (l : List FeedItem) :
    (sortDesc key l).Pairwise (fun a b => key b ≤ key a) := by
  induction l with
  | nil => exact List.Pairwise.nil
  | cons x xs ih => exact insertDesc_sorted key x ih

/-! ## Lemmas about the store model -/

theorem storeSet_map_fst (st : StoreState) (k : List Char) (v : FeedItem) :
    (storeSet st k v).map Prod.fst
      = if st.any (fun kv => kv.1 == k) then st.map Prod.fst
        else st.map Prod.fst ++ [k] := by
  unfold storeSet
  by_cases h : st.any (fun kv => kv.1 == k) = true
  · rw [if_pos h, if_pos h, List.map_map]
    apply List.map_congr_left
    intro kv _
    by_cases hk : kv.1 = k
    · simp [hk]
    · simp [hk]
  · rw [if_neg h, if_neg h, List.map_append]
    rfl

theorem storeSet_nodup_keys {st : StoreState} (k : List Char) (v : FeedItem)
    (h : (st.map Prod.fst).Nodup) : ((storeSet st k v).map Prod.fst).Nodup := by
  rw [storeSet_map_fst]
  by_cases hany : st.any (fun kv => kv.1 == k) = true
  · rw [if_pos hany]
    exact h
  · rw [if_neg hany]
    have hk : k ∉ st.map Prod.fst := by
      intro hmem
      rcases List.mem_map.1 hmem with ⟨kv, hkv, hfst⟩
      exact hany (List.any_eq_true.2 ⟨kv, hkv, by rw [hfst]; exact beq_self_eq_true k⟩)
    simp [List.nodup_append, h, hk]

theorem storeWrite_foldl_nodup (items : List FeedItem) :
    ∀ st : StoreState, (st.map Prod.fst).Nodup →
      ((items.foldl (fun st it => storeSet st (contentId it.link) it) st).map
          Prod.fst).Nodup := by
  induction items with
  | nil => intro st h; exact h
  | cons it rest ih =>
    intro st h
    rw [List.foldl_cons]
    exact ih _ (storeSet_nodup_keys _ _ h)

theorem storeWrite_nodup_keys (items : List FeedItem) :
    ((storeFeedItemsWrite items).map Prod.fst).Nodup :=
  storeWrite_foldl_nodup items [] (by simp)

theorem filter_key_le_one {st : StoreState} (key : List Char)
    (h : (st.map Prod.fst).Nodup) :
    (st.filter (fun kv => kv.1 == key)).length ≤ 1 := by
  induction st with
  | nil => simp
  | cons kv rest ih =>
    rw [List.map_cons, List.nodup_cons] at h
    rw [List.filter_cons]
    by_cases hk : (kv.1 == key) = true
    · rw [if_pos hk, List.length_cons]
      have hkey : kv.1 = key := eq_of_beq hk
      have hnil : rest.filter (fun kv2 => kv2.1 == key) = [] := by
        rw [List.filter_eq_nil_iff]
        intro kv2 hkv2 hbeq
        have h2 : kv2.1 = key := eq_of_beq hbeq
        apply h.1
        rw [hkey, ← h2]
        exact List.mem_map.2 ⟨kv2, hkv2, rfl⟩
      rw [hnil]
      exact Nat.le_refl 1
    · rw [Bool.not_eq_true] at hk
      rw [hk]
      simp only [Bool.false_eq_true, if_false]
      exact ih h.2

theorem storeWrite_key_count (items : List FeedItem) (key : List Char) :
    ((storeFeedItemsWrite items).filter (fun kv => kv.1 == key)).length ≤ 1 :=
  filter_key_le_one key (storeWrite_nodup_keys items)

theorem storeWrite_pair (a b : FeedItem) (hab : a.link = b.link) :
    storeFeedItemsWrite [a, b] = [(contentId b.link, b)] := by
  unfold storeFeedItemsWrite
  rw [List.foldl_cons, List.foldl_cons, List.foldl_nil]
  have h1 : storeSet [] (contentId a.link) a = [(contentId a.link, a)] := rfl
  rw [h1, hab]
  unfold storeSet
  simp

theorem b64Char_mem (n : Nat) : b64Char n ∈ b64Alphabet := by
  unfold b64Char
  rw [List.getD_eq_getElem?_getD]
  cases h : b64Alphabet[n]? with
  | none => simp only [h, Option.getD_none]; decide
  | some c =>
    simp only [h, Option.getD_some]
    exact List.getElem?_mem h

theorem base64Chunks_mem :
    ∀ (bs : List Nat) (c : Char), c ∈ base64Chunks bs → c ∈ b64Alphabet ∨ c = '='
  | [], _, h => by cases h
  | [b1], c, h => by
    simp only [base64Chunks, List.mem_cons, List.not_mem_nil, or_false] at h
    rcases h with rfl | rfl | rfl | rfl
    · exact Or.inl (b64Char_mem _)
    · exact Or.inl (b64Char_mem _)
    · exact Or.inr rfl
    · exact Or.inr rfl
  | [b1, b2], c, h => by
    simp only [base64Chunks, List.mem_cons, List.not_mem_nil, or_false] at h
    rcases h with rfl | rfl | rfl | rfl
    · exact Or.inl (b64Char_mem _)
    · exact Or.inl (b64Char_mem _)
    · exact Or.inl (b64Char_mem _)
    · exact Or.inr rfl
  | b1 :: b2 :: b3 :: rest, c, h => by
    simp only [base64Chunks, List.mem_cons] at h
    rcases h with rfl | rfl | rfl | rfl | h
    · exact Or.inl (b64Char_mem _)
    · exact Or.inl (b64Char_mem _)
    · exact Or.inl (b64Char_mem _)
    · exact Or.inl (b64Char_mem _)
    · exact base64Chunks_mem rest c h

theorem b64Alphabet_alnum :
    ∀ c ∈ b64Alphabet, c ≠ '+' → c ≠ '/' → c.isAlphanum = true := by
  decide

theorem contentId_urlsafe (link : List Char) :
    ∀ c ∈ contentId link, (c.isAlphanum || c = '-' || c = '_') = true := by
  intro c hc
  unfold contentId at hc
  rw [List.mem_filter] at hc
  obtain ⟨hmap, hne⟩ := hc
  rcases List.mem_map.1 hmap with ⟨c0, hc0, hrw⟩
  rcases base64Chunks_mem _ c0 hc0 with halpha | heq
  · by_cases h1 : c0 = '+'
    · rw [h1] at hrw
      simp only [if_pos rfl] at hrw
      subst hrw
      decide
    · by_cases h2 : c0 = '/'
      · rw [h2] at hrw
        simp only [if_neg (by decide : ¬('/' = '+')), if_pos rfl] at hrw
        subst hrw
        decide
      · rw [if_neg h1, if_neg h2] at hrw
        subst hrw
        have := b64Alphabet_alnum c0 halpha h1 h2
        simp [this]
  · rw [heq] at hrw
    simp only [if_neg (by decide : ¬('=' = '+')), if_neg (by decide : ¬('=' = '/'))] at hrw
    subst hrw
    simp at hne

/-! ## Claim theorems -/

/-- C1: for every batch of sources, outcomes are independent: the items of
the batch are exactly the concatenation, in source-list order, of the item
lists of the sources that produced data (a source failing with an error and
no data contributes nothing and removes nothing), and the error list holds
exactly one message per failing source, each message containing that
source's URL. -/
theorem claim_c1_partial_failure_isolation
    (urls : List (List Char)) (results : List FetchResult)
    (hlen : urls.length = results.length) :
    (aggregateResults urls results).1
      = (results.filterMap (fun r => r.data?)).flatten
    ∧ (aggregateResults urls results).2.length
      = results.countP (fun r => r.error?.isSome)
    ∧ ∀ p ∈ urls.zip results, ∀ e, p.2.error? = some e →
        feedErrMsg p.1 e ∈ (aggregateResults urls results).2
        ∧ containsSub p.1 (feedErrMsg p.1 e) = true := by
  refine ⟨aggregate_items urls results hlen,
    aggregate_errors_length urls results hlen, ?_⟩
  intro p hp e he
  constructor
  · apply aggregate_errors_mem urls results _ he
    rw [Prod.mk.eta]
    exact hp
  · unfold feedErrMsg
    rw [List.append_assoc (feedMsgPre ++ p.1) feedMsgMid e]
    exact containsSub_append_mid p.1 feedMsgPre (feedMsgMid ++ e)

def w1ItemA : FeedItem :=
  { title := ("A").toList, link := ("http://a/1").toList
    description := ("da").toList, pubDate := ("pa").toList }

def w1ItemC : FeedItem :=
  { title := ("C").toList, link := ("http://c/1").toList
    description := ("dc").toList, pubDate := ("pc").toList }

def w1Urls : List (List Char) :=
  [("http://a").toList, ("http://b").toList, ("http://c").toList]

def w1ResB : FetchResult :=
  { error? := some (("Failed to fetch feed. Server responded with status: 500").toList) }

def w1Results : List FetchResult :=
  [{ data? := some [w1ItemA] }, w1ResB, { data? := some [w1ItemC] }]

theorem claim_c1_witness :
    (aggregateResults w1Urls w1Results).1 = [w1ItemA, w1ItemC]
    ∧ (aggregateResults w1Urls w1Results).2.length = 1
    ∧ feedErrMsg (("http://b").toList)
        (("Failed to fetch feed. Server responded with status: 500").toList)
        ∈ (aggregateResults w1Urls w1Results).2
    ∧ containsSub (("http://b").toList)
        (feedErrMsg (("http://b").toList)
          (("Failed to fetch feed. Server responded with status: 500").toList))
        = true := by
  have h := claim_c1_partial_failure_isolation w1Urls w1Results (by decide)
  have hmem := h.2.2 ((("http://b").toList), w1ResB) (by decide)
    (("Failed to fetch feed. Server responded with status: 500").toList) rfl
  exact ⟨h.1.trans (by decide), h.2.1.trans (by decide), hmem.1, hmem.2⟩

/-- C2: the storage key is a deterministic, URL-safe function of the link
alone (every key character is alphanumeric, `-` or `_`), the written
snapshot never carries two records under one key, and writing two items
with identical links leaves exactly the later item stored under that
link's ContentID. -/
theorem claim_c2_dedup_storage :
    (∀ (items : List FeedItem) (key : List Char),
      ((storeFeedItemsWrite items).filter (fun kv => kv.1 == key)).length ≤ 1)
    ∧ (∀ a b : FeedItem, a.link = b.link →
        storeFeedItemsWrite [a, b] = [(contentId b.link, b)])
    ∧ (∀ link : List Char, ∀ c ∈ contentId link,
        (c.isAlphanum || c = '-' || c = '_') = true) :=
  ⟨storeWrite_key_count, storeWrite_pair, contentId_urlsafe⟩

def w2ItemA : FeedItem :=
  { title := ("first").toList, link := ("http://example.com/1").toList
    description := ("d1").toList, pubDate := ("p1").toList }

def w2ItemB : FeedItem :=
  { title := ("second").toList, link := ("http://example.com/1").toList
    description := ("d2").toList, pubDate := ("p2").toList }

theorem claim_c2_witness :
    storeFeedItemsWrite [w2ItemA, w2ItemB] = [(contentId w2ItemB.link, w2ItemB)]
    ∧ ((storeFeedItemsWrite [w2ItemA, w2ItemB]).filter
        (fun kv => kv.1 == contentId w2ItemB.link)).length ≤ 1
    ∧ contentId w2ItemB.link = ("aHR0cDovL2V4YW1wbGUuY29tLzE").toList := by
  refine ⟨claim_c2_dedup_storage.2.1 w2ItemA w2ItemB (by decide), ?_, by decide⟩
  exact claim_c2_dedup_storage.1 [w2ItemA, w2ItemB] (contentId w2ItemB.link)

/-- C3 counterexample: the entity decoder is not idempotent — on the
double-encoded input `&amp;lt;` one pass yields `&lt;` and a second pass
decodes further to `<`, so `decode (decode x) ≠ decode x`. -/
theorem claim_c3_counterexample :
    decodeHtmlEntities (decodeHtmlEntities (("&amp;lt;").toList))
      ≠ decodeHtmlEntities (("&amp;lt;").toList) := by decide

/-- C3 amended: the decoder is total, and decoding a string that contains
none of the six recognized entity sequences returns it unchanged — in
particular unknown entities pass through unchanged.  (The idempotence part
of the claim is false: see the counterexample; a double-encoded entity
decodes further on a second pass.) -/
theorem claim_c3_amended (s : List Char)
    (h1 : containsSub entLt s = false) (h2 : containsSub entGt s = false)
    (h3 : containsSub entAmp s = false) (h4 : containsSub entQuot s = false)
    (h5 : containsSub entApos039 s = false) (h6 : containsSub entApos39 s = false) :
    decodeHtmlEntities s = s := by
  unfold decodeHtmlEntities
  rw [replaceAllL_no_occurrence h1, replaceAllL_no_occurrence h2,
    replaceAllL_no_occurrence h3, replaceAllL_no_occurrence h4,
    replaceAllL_no_occurrence h5, replaceAllL_no_occurrence h6]

theorem claim_c3_witness :
    decodeHtmlEntities (("&unknown; plain text &x;").toList)
      = ("&unknown; plain text &x;").toList :=
  claim_c3_amended _ (by decide) (by decide) (by decide) (by decide)
    (by decide) (by decide)

/-- C7: when the markup-stripped description is shorter than the 50
character threshold, the summarization flow returns the same result for
every collaborator (no external call is consulted), and the enriched item
carries the stripped text as its sole summary bullet, the `Unknown` /
`Summary unavailable` placeholders, and the current date as `pubDate`. -/
theorem claim_c7_short_content
    (promptA promptB : List Char → Except Unit (Option SummaryOutput))
    (today : List Char) (item : FeedItem)
    (h : (stripMarkup item.description).length < 50) :
    summarizeReleaseNoteFlow promptA today item.description
      = summarizeReleaseNoteFlow promptB today item.description
    ∧ enrichItem
        (fun d => Except.ok (summarizeReleaseNoteFlow promptA today d)) item
      = { item with
          summary := some [stripMarkup item.description]
          product := some unknownStr
          subcomponent := none
          title := summaryUnavailableStr
          pubDate := today } := by
  have hflow : ∀ pc, summarizeReleaseNoteFlow pc today item.description =
      { product := unknownStr, title := summaryUnavailableStr, pubDate := today
        summary := [stripMarkup item.description] } := by
    intro pc
    unfold summarizeReleaseNoteFlow
    rw [if_pos h]
  refine ⟨(hflow promptA).trans (hflow promptB).symm, ?_⟩
  have hstep : enrichItem
      (fun d => Except.ok (summarizeReleaseNoteFlow promptA today d)) item
      = { item with
          summary := some (summarizeReleaseNoteFlow promptA today item.description).summary
          product := some (summarizeReleaseNoteFlow promptA today item.description).product
          subcomponent := (summarizeReleaseNoteFlow promptA today item.description).subcomponent
          title := (summarizeReleaseNoteFlow promptA today item.description).title
          pubDate := (summarizeReleaseNoteFlow promptA today item.description).pubDate } := rfl
  rw [hstep, hflow promptA]

def w7Item : FeedItem :=
  { title := ("Test Item 1").toList, link := ("http://example.com/1").toList
    description := ("Description 1").toList
    pubDate := ("Tue, 08 Jul 2025 00:00:00 GMT").toList }

def w7Today : List Char := ("2025-07-08").toList

theorem claim_c7_witness :
    enrichItem
      (fun d => Except.ok
        (summarizeReleaseNoteFlow (fun _ => Except.error ()) w7Today d)) w7Item
      = { w7Item with
          summary := some [("Description 1").toList]
          product := some unknownStr
          subcomponent := none
          title := summaryUnavailableStr
          pubDate := w7Today }
    ∧ (stripMarkup w7Item.description).length < 50 := by
  have h := claim_c7_short_content (fun _ => Except.error ())
    (fun _ => Except.error ()) w7Today w7Item (by decide)
  exact ⟨h.2.trans (by decide), by decide⟩

/-- C8: the enrichment barrier yields exactly one outcome per input item
(the output has the same length and the k-th output is the enrichment of
the k-th input — no item is dropped); when the collaborator fails for an
item, that item's summary becomes the single-element fallback string while
title, link, description and pubDate stay exactly as parsed; on success
the structured fields overwrite the parsed ones. -/
theorem claim_c8_fallback_isolation
    (summarize : List Char → Except Unit SummaryOutput) (items : List FeedItem) :
    (enrichItems summarize items).length = items.length
    ∧ ∀ (k : Nat) (it : FeedItem), items[k]? = some it →
        (enrichItems summarize items)[k]? = some (enrichItem summarize it)
        ∧ (summarize it.description = Except.error () →
            enrichItem summarize it = { it with summary := some [errorSummarizingStr] })
        ∧ (∀ r, summarize it.description = Except.ok r →
            enrichItem summarize it =
              { it with
                summary := some r.summary
                product := some r.product
                subcomponent := r.subcomponent
                title := r.title
                pubDate := r.pubDate }) := by
  refine ⟨by simp [enrichItems], ?_⟩
  intro k it hk
  refine ⟨?_, ?_, ?_⟩
  · unfold enrichItems
    rw [List.getElem?_map, hk]
    rfl
  · intro herr
    unfold enrichItem
    rw [herr]
  · intro r hok
    unfold enrichItem
    rw [hok]

def w8Good : FeedItem :=
  { title := ("good").toList, link := ("http://g").toList
    description := ("good desc").toList, pubDate := ("p").toList }

def w8Bad : FeedItem :=
  { title := ("bad").toList, link := ("http://b").toList
    description := ("bad desc").toList, pubDate := ("q").toList }

def w8Out : SummaryOutput :=
  { product := ("P").toList, title := ("T").toList, pubDate := ("D").toList
    summary := [("S").toList] }

def w8Summarize (d : List Char) : Except Unit SummaryOutput :=
  if d = ("bad desc").toList then Except.error () else Except.ok w8Out

theorem claim_c8_witness :
    (enrichItems w8Summarize [w8Good, w8Bad]).length = 2
    ∧ (enrichItems w8Summarize [w8Good, w8Bad])[1]?
        = some { w8Bad with summary := some [errorSummarizingStr] }
    ∧ (enrichItems w8Summarize [w8Good, w8Bad])[0]?
        = some { w8Good with
            summary := some w8Out.summary
            product := some w8Out.product
            subcomponent := w8Out.subcomponent
            title := w8Out.title
            pubDate := w8Out.pubDate } := by
  have h := claim_c8_fallback_isolation w8Summarize [w8Good, w8Bad]
  have hbad := h.2 1 w8Bad (by decide)
  have hgood := h.2 0 w8Good (by decide)
  refine ⟨h.1, ?_, ?_⟩
  · rw [hbad.1, hbad.2.1 rfl]
  · rw [hgood.1, hgood.2.2 w8Out rfl]

/-- C10: with the Firestore handle unconfigured (`db = none`), the store
operations degrade silently: reads return an empty item list with no error,
writes report success without touching any store, no storage error kind is
surfaced, and the cache decision always falls through to the fresh-fetch
path. -/
theorem claim_c10_null_db_degradation :
    getStoredFeedItems none = { data? := some [], error? := none }
    ∧ (∀ items, storeFeedItemsOp none items = (true, none))
    ∧ loadFeedsUsesCache (getStoredFeedItems none) = false :=
  ⟨rfl, fun _ => rfl, rfl⟩

theorem inCurrentWeek_iff (parseDate : List Char → Option Int) (now : Int)
    (it : FeedItem) :
    inCurrentWeek parseDate now it = true
      ↔ ∃ d, itemAge parseDate now it = some d ∧ 0 ≤ d ∧ d ≤ 7 := by
  cases hage : itemAge parseDate now it with
  | none => simp [inCurrentWeek, hage]
  | some d => simp [inCurrentWeek, hage, And.comm]

theorem inPreviousWeek_iff (parseDate : List Char → Option Int) (now : Int)
    (it : FeedItem) :
    inPreviousWeek parseDate now it = true
      ↔ ∃ d, itemAge parseDate now it = some d ∧ 7 < d ∧ d ≤ 14 := by
  cases hage : itemAge parseDate now it with
  | none => simp [inPreviousWeek, hage]
  | some d => simp [inPreviousWeek, hage, And.comm]

theorem weeklyBuckets_eq (parseDate : List Char → Option Int) (now : Int)
    (items : List FeedItem) :
    weeklyBuckets parseDate now items
      = (sortDesc (itemTime parseDate) (items.filter (inCurrentWeek parseDate now)),
         sortDesc (itemTime parseDate) (items.filter (inPreviousWeek parseDate now))) := by
  unfold weeklyBuckets
  rw [weeklyBucketsRaw_eq_filter]

/-- C5: the weekly classifier buckets by whole-day age `d = now − pubDate`:
an item lands in the current-week bucket exactly when `0 ≤ d ≤ 7`, in the
previous-week bucket exactly when `7 < d ≤ 14`, and in neither otherwise
(so items 15 days old or future-dated by a whole day are excluded); items
with missing or unparseable `pubDate` are excluded from both buckets, and
each bucket is sorted by `pubDate` descending. -/
theorem claim_c5_weekly_classifier (parseDate : List Char → Option Int)
    (now : Int) (items : List FeedItem) :
    (∀ it, it ∈ (weeklyBuckets parseDate now items).1 ↔
        it ∈ items ∧ ∃ d, itemAge parseDate now it = some d ∧ 0 ≤ d ∧ d ≤ 7)
    ∧ (∀ it, it ∈ (weeklyBuckets parseDate now items).2 ↔
        it ∈ items ∧ ∃ d, itemAge parseDate now it = some d ∧ 7 < d ∧ d ≤ 14)
    ∧ (∀ it, itemAge parseDate now it = none →
        it ∉ (weeklyBuckets parseDate now items).1
        ∧ it ∉ (weeklyBuckets parseDate now items).2)
    ∧ (weeklyBuckets parseDate now items).1.Pairwise
        (fun a b => itemTime parseDate b ≤ itemTime parseDate a)
    ∧ (weeklyBuckets parseDate now items).2.Pairwise
        (fun a b => itemTime parseDate b ≤ itemTime parseDate a) := by
  have hb := weeklyBuckets_eq parseDate now items
  have hmem1 : ∀ it, it ∈ (weeklyBuckets parseDate now items).1 ↔
      it ∈ items ∧ ∃ d, itemAge parseDate now it = some d ∧ 0 ≤ d ∧ d ≤ 7 := by
    intro it
    rw [hb]
    rw [(sortDesc_perm (itemTime parseDate) _).mem_iff, List.mem_filter,
      inCurrentWeek_iff]
  have hmem2 : ∀ it, it ∈ (weeklyBuckets parseDate now items).2 ↔
      it ∈ items ∧ ∃ d, itemAge parseDate now it = some d ∧ 7 < d ∧ d ≤ 14 := by
    intro it
    rw [hb]
    rw [(sortDesc_perm (itemTime parseDate) _).mem_iff, List.mem_filter,
      inPreviousWeek_iff]
  refine ⟨hmem1, hmem2, ?_, ?_, ?_⟩
  · intro it hnone
    constructor
    · intro hmem
      rcases (hmem1 it).1 hmem with ⟨_, d, hd, _⟩
      rw [hnone] at hd
      cases hd
    · intro hmem
      rcases (hmem2 it).1 hmem with ⟨_, d, hd, _⟩
      rw [hnone] at hd
      cases hd
  · rw [hb]
    exact sortDesc_sorted _ _
  · rw [hb]
    exact sortDesc_sorted _ _

def w5Seven : FeedItem :=
  { title := ("seven days old").toList, link := ("http://s").toList
    description := ("d").toList, pubDate := ("seven").toList }

def w5Eight : FeedItem :=
  { title := ("eight days old").toList, link := ("http://e").toList
    description := ("d").toList, pubDate := ("eight").toList }

def w5Fifteen : FeedItem :=
  { title := ("fifteen days old").toList, link := ("http://f").toList
    description := ("d").toList, pubDate := ("fifteen").toList }

def w5Future : FeedItem :=
  { title := ("a day in the future").toList, link := ("http://u").toList
    description := ("d").toList, pubDate := ("future").toList }

def w5Garbage : FeedItem :=
  { title := ("unparseable date").toList, link := ("http://g").toList
    description := ("d").toList, pubDate := ("garbage").toList }

/-- A concrete date parser: epoch instants in milliseconds for the four
recognizable date strings, `none` (a `NaN` date) otherwise. -/
def w5Parse (s : List Char) : Option Int :=
  if s = ("seven").toList then some (8 * msPerDay)
  else if s = ("eight").toList then some (7 * msPerDay)
  else if s = ("fifteen").toList then some 0
  else if s = ("future").toList then some (16 * msPerDay)
  else none

def w5Now : Int := 15 * msPerDay

def w5Items : List FeedItem := [w5Seven, w5Eight, w5Fifteen, w5Future, w5Garbage]

theorem claim_c5_witness :
    w5Seven ∈ (weeklyBuckets w5Parse w5Now w5Items).1
    ∧ w5Eight ∈ (weeklyBuckets w5Parse w5Now w5Items).2
    ∧ w5Fifteen ∉ (weeklyBuckets w5Parse w5Now w5Items).1
    ∧ w5Fifteen ∉ (weeklyBuckets w5Parse w5Now w5Items).2
    ∧ w5Future ∉ (weeklyBuckets w5Parse w5Now w5Items).1
    ∧ w5Future ∉ (weeklyBuckets w5Parse w5Now w5Items).2
    ∧ w5Garbage ∉ (weeklyBuckets w5Parse w5Now w5Items).1
    ∧ w5Garbage ∉ (weeklyBuckets w5Parse w5Now w5Items).2 := by
  have h := claim_c5_weekly_classifier w5Parse w5Now w5Items
  have hgarbage := h.2.2.1 w5Garbage (by decide)
  refine ⟨?_, ?_, ?_, ?_, ?_, ?_, hgarbage.1, hgarbage.2⟩
  · exact (h.1 w5Seven).2 ⟨by decide, 7, by decide, by decide, by decide⟩
  · exact (h.2.1 w5Eight).2 ⟨by decide, 8, by decide, by decide, by decide⟩
  · intro hmem
    rcases (h.1 w5Fifteen).1 hmem with ⟨_, d, hd, _, h7⟩
    have hval : itemAge w5Parse w5Now w5Fifteen = some 15 := by decide
    cases hval.symm.trans hd
    exact absurd h7 (by decide)
  · intro hmem
    rcases (h.2.1 w5Fifteen).1 hmem with ⟨_, d, hd, _, h14⟩
    have hval : itemAge w5Parse w5Now w5Fifteen = some 15 := by decide
    cases hval.symm.trans hd
    exact absurd h14 (by decide)
  · intro hmem
    rcases (h.1 w5Future).1 hmem with ⟨_, d, hd, h0, _⟩
    have hval : itemAge w5Parse w5Now w5Future = some (-1) := by decide
    cases hval.symm.trans hd
    exact absurd h0 (by decide)
  · intro hmem
    rcases (h.2.1 w5Future).1 hmem with ⟨_, d, hd, h7, _⟩
    have hval : itemAge w5Parse w5Now w5Future = some (-1) := by decide
    cases hval.symm.trans hd
    exact absurd h7 (by decide)

/-- C6: an entry whose description contains no `<h3>` marker passes through
as one FeedItem (entity-decoded fields, link and pubDate untouched); an
entry containing markers yields exactly one derived item per marker
occurrence, the preamble before the first marker is discarded (the k-th
item is built from the (k+1)-th split part only), the k-th derived link is
the parent link suffixed `-k`, and the derived title is the text between
the marker and the following `</h3>`, falling back to the parent title when
that closing tag is absent. -/
theorem claim_c6_splitter (entryTitle link pubDate description : List Char) :
    (containsSub h3Open description = false →
      splitEntry entryTitle link pubDate description =
        [{ title := decodeHtmlEntities entryTitle, link := link
           description := decodeHtmlEntities description, pubDate := pubDate }])
    ∧ (containsSub h3Open description = true →
        (splitEntry entryTitle link pubDate description).length
          = countOccs h3Open description
        ∧ ∀ (k : Nat) (sub : List Char),
            (splitOnL h3Open description)[k + 1]? = some sub →
            (splitEntry entryTitle link pubDate description)[k]? = some
              { title :=
                  match takeUntilInfix h3Close sub with
                  | some subT => decodeHtmlEntities (trimL subT)
                  | none => decodeHtmlEntities entryTitle
                link := link ++ dashStr ++ natToChars k
                pubDate := pubDate
                description := decodeHtmlEntities (h3Open ++ sub) }) := by
  constructor
  · intro h
    unfold splitEntry
    rw [h]
    simp
  · intro h
    unfold splitEntry
    rw [h]
    simp only [if_true]
    constructor
    · rw [mapIdxFrom_length, List.length_drop, length_splitOnL]
      omega
    · intro k sub hsub
      rw [mapIdxFrom_getElem?, List.getElem?_drop, Nat.add_comm 1 k, hsub]
      simp only [Nat.zero_add]
      rfl

def w6Desc : List Char :=
  ("preamble<h3>First</h3>alpha<h3>Second</h3>beta").toList

def w6Split : List FeedItem :=
  splitEntry (("parent").toList) (("http://x").toList) (("P").toList) w6Desc

theorem claim_c6_witness :
    countOccs h3Open w6Desc = 2
    ∧ w6Split.length = 2
    ∧ w6Split[0]? = some
        { title := ("First").toList, link := ("http://x-0").toList
          description := ("<h3>First</h3>alpha").toList, pubDate := ("P").toList }
    ∧ w6Split[1]? = some
        { title := ("Second").toList, link := ("http://x-1").toList
          description := ("<h3>Second</h3>beta").toList, pubDate := ("P").toList } := by
  have h := (claim_c6_splitter (("parent").toList) (("http://x").toList)
    (("P").toList) w6Desc).2 (by decide)
  refine ⟨by decide, h.1.trans (by decide), ?_, ?_⟩
  · exact (h.2 0 (("First</h3>alpha").toList) (by decide)).trans (by decide)
  · exact (h.2 1 (("Second</h3>beta").toList) (by decide)).trans (by decide)

/-- C4: a document containing `<feed` is parsed as Atom (entry blocks),
otherwise as RSS (item blocks); when no block is found, the parser fails
with the format error exactly when the root marker of the detected dialect
is also missing, and returns an empty item list without error when the
marker is present; the literal input `not a valid rss feed` yields the
format error. -/
theorem claim_c4_format_detection
    (atomLink : List Char → Option (List Char)) (nowStr xml : List Char) :
    (containsSub feedMarker xml = true →
      extractBlocks entryOpen entryClose xml = [] →
      parseFeedDocument atomLink nowStr xml = Except.ok [])
    ∧ (containsSub feedMarker xml = true →
        extractBlocks entryOpen entryClose xml ≠ [] →
        parseFeedDocument atomLink nowStr xml
          = Except.ok ((extractBlocks entryOpen entryClose xml).flatMap
              (processBlock atomLink true nowStr)))
    ∧ (containsSub feedMarker xml = false →
        extractBlocks itemOpen itemClose xml ≠ [] →
        parseFeedDocument atomLink nowStr xml
          = Except.ok ((extractBlocks itemOpen itemClose xml).flatMap
              (processBlock atomLink false nowStr)))
    ∧ (containsSub feedMarker xml = false →
        extractBlocks itemOpen itemClose xml = [] →
        containsSub rssMarker xml = false →
        parseFeedDocument atomLink nowStr xml = Except.error errInvalidFeed)
    ∧ (containsSub feedMarker xml = false →
        extractBlocks itemOpen itemClose xml = [] →
        containsSub rssMarker xml = true →
        parseFeedDocument atomLink nowStr xml = Except.ok [])
    ∧ parseFeedDocument atomLink nowStr (("not a valid rss feed").toList)
        = Except.error errInvalidFeed := by
  refine ⟨?_, ?_, ?_, ?_, ?_, rfl⟩
  · intro h1 h2
    simp [parseFeedDocument, h1, h2]
  · intro h1 h2
    simp [parseFeedDocument, h1, h2]
  · intro h1 h2
    simp [parseFeedDocument, h1, h2]
  · intro h1 h2 h3
    simp [parseFeedDocument, h1, h2, h3]
  · intro h1 h2 h3
    simp [parseFeedDocument, h1, h2, h3]

theorem claim_c4_witness :
    parseFeedDocument (fun _ => none) [] (("<feed></feed>").toList) = Except.ok []
    ∧ parseFeedDocument (fun _ => none) []
        (("<rss><channel></channel></rss>").toList) = Except.ok []
    ∧ parseFeedDocument (fun _ => none) [] (("not a valid rss feed").toList)
        = Except.error errInvalidFeed := by
  have hfeed := claim_c4_format_detection (fun _ => none) []
    (("<feed></feed>").toList)
  have hrss := claim_c4_format_detection (fun _ => none) []
    (("<rss><channel></channel></rss>").toList)
  exact ⟨hfeed.1 (by decide) (by decide),
    hrss.2.2.2.2.1 (by decide) (by decide) (by decide),
    hrss.2.2.2.2.2⟩

/-! ## Structured extraction from a canonical RSS block (for C9) -/

theorem dropThroughInfix_planted' {q pt : List Char} (hsh : q = '<' :: pt)
    (hpt : '<' ∉ pt) (d r : List Char) (hc : containsSub q d = false) :
    dropThroughInfix q (d ++ q ++ r) = some r := by
  subst hsh
  exact dropThroughInfix_planted hpt d r hc

theorem takeUntilInfix_planted' {q pt : List Char} (hsh : q = '<' :: pt)
    (hpt : '<' ∉ pt) (d r : List Char) (hc : containsSub q d = false) :
    takeUntilInfix q (d ++ q ++ r) = some d := by
  subst hsh
  exact takeUntilInfix_planted hpt d r hc

theorem containsSub_no_lt' {q pt a : List Char} (hsh : q = '<' :: pt)
    (ha : '<' ∉ a) : containsSub q a = false := by
  subst hsh
  exact containsSub_eq_false_of_no_lt ha

theorem containsSub_append_no_lt' {q pt a : List Char} (hsh : q = '<' :: pt)
    (b : List Char) (ha : '<' ∉ a) :
    containsSub q (a ++ b) = containsSub q b := by
  subst hsh
  exact containsSub_append_of_no_lt b ha

theorem containsSub_tag_skip' {q tag : List Char} {p1 t1 : Char} {pt tr : List Char}
    (hq : q = '<' :: p1 :: pt) (htag : tag = '<' :: t1 :: tr)
    (h1 : p1 ≠ t1) (htr : '<' ∉ tr) (ht1 : t1 ≠ '<') (b : List Char) :
    containsSub q (tag ++ b) = containsSub q b := by
  subst hq
  subst htag
  exact containsSub_tag_skip b h1 htr ht1

/-- The canonical RSS item block carrying title `t`, link `l`, pubDate `p`
and description `d`. -/
def rssBlockTemplate (t l p d : List Char) : List Char :=
  itemOpen ++ (titleOpen ++ (t ++ (titleClose ++ (linkOpen ++ (l ++ (linkClose ++
    (pubDateOpen ++ (p ++ (pubDateClose ++ (descOpen ++ (d ++ (descClose ++
      itemClose))))))))))))

theorem template_title (t l p d : List Char) (ht : '<' ∉ t) :
    matchBetween titleOpen titleClose (rssBlockTemplate t l p d) = some t := by
  have hdrop : dropThroughInfix titleOpen (rssBlockTemplate t l p d)
      = some (t ++ (titleClose ++ (linkOpen ++ (l ++ (linkClose ++ (pubDateOpen ++
          (p ++ (pubDateClose ++ (descOpen ++ (d ++ (descClose ++ itemClose))))))))))) := by
    have h := dropThroughInfix_planted' (q := titleOpen)
      (by decide : titleOpen = '<' :: ("title>").toList) (by decide)
      itemOpen
      (t ++ (titleClose ++ (linkOpen ++ (l ++ (linkClose ++ (pubDateOpen ++
        (p ++ (pubDateClose ++ (descOpen ++ (d ++ (descClose ++ itemClose)))))))))))
      (by decide)
    unfold rssBlockTemplate
    simpa [List.append_assoc] using h
  have htake : takeUntilInfix titleClose
      (t ++ (titleClose ++ (linkOpen ++ (l ++ (linkClose ++ (pubDateOpen ++
        (p ++ (pubDateClose ++ (descOpen ++ (d ++ (descClose ++ itemClose)))))))))))
      = some t := by
    have h := takeUntilInfix_planted' (q := titleClose)
      (by decide : titleClose = '<' :: ("/title>").toList) (by decide)
      t
      (linkOpen ++ (l ++ (linkClose ++ (pubDateOpen ++ (p ++ (pubDateClose ++
        (descOpen ++ (d ++ (descClose ++ itemClose)))))))))
      (containsSub_no_lt' (by decide : titleClose = '<' :: ("/title>").toList) ht)
    simpa [List.append_assoc] using h
  unfold matchBetween
  rw [hdrop, Option.some_bind]
  exact htake

theorem template_link (t l p d : List Char) (ht : '<' ∉ t) (hl : '<' ∉ l) :
    matchBetween linkOpen linkClose (rssBlockTemplate t l p d) = some l := by
  have hpre : containsSub linkOpen
      (itemOpen ++ (titleOpen ++ (t ++ titleClose))) = false := by
    rw [containsSub_tag_skip' (by decide : linkOpen = '<' :: 'l' :: ("ink>").toList)
      (by decide : itemOpen = '<' :: 'i' :: ("tem>").toList)
      (by decide) (by decide) (by decide)]
    rw [containsSub_tag_skip' (by decide : linkOpen = '<' :: 'l' :: ("ink>").toList)
      (by decide : titleOpen = '<' :: 't' :: ("itle>").toList)
      (by decide) (by decide) (by decide)]
    rw [containsSub_append_no_lt' (by decide : linkOpen = '<' :: ("link>").toList)
      titleClose ht]
    decide
  have hdrop : dropThroughInfix linkOpen (rssBlockTemplate t l p d)
      = some (l ++ (linkClose ++ (pubDateOpen ++ (p ++ (pubDateClose ++
          (descOpen ++ (d ++ (descClose ++ itemClose)))))))) := by
    have h := dropThroughInfix_planted' (q := linkOpen)
      (by decide : linkOpen = '<' :: ("link>").toList) (by decide)
      (itemOpen ++ (titleOpen ++ (t ++ titleClose)))
      (l ++ (linkClose ++ (pubDateOpen ++ (p ++ (pubDateClose ++
        (descOpen ++ (d ++ (descClose ++ itemClose))))))))
      hpre
    unfold rssBlockTemplate
    simpa [List.append_assoc] using h
  have htake : takeUntilInfix linkClose
      (l ++ (linkClose ++ (pubDateOpen ++ (p ++ (pubDateClose ++
        (descOpen ++ (d ++ (descClose ++ itemClose))))))))
      = some l := by
    have h := takeUntilInfix_planted' (q := linkClose)
      (by decide : linkClose = '<' :: ("/link>").toList) (by decide)
      l
      (pubDateOpen ++ (p ++ (pubDateClose ++ (descOpen ++ (d ++ (descClose ++
        itemClose))))))
      (containsSub_no_lt' (by decide : linkClose = '<' :: ("/link>").toList) hl)
    simpa [List.append_assoc] using h
  unfold matchBetween
  rw [hdrop, Option.some_bind]
  exact htake

theorem template_pubDate (t l p d : List Char) (ht : '<' ∉ t) (hl : '<' ∉ l)
    (hp : '<' ∉ p) :
    matchBetween pubDateOpen pubDateClose (rssBlockTemplate t l p d) = some p := by
  have hpre : containsSub pubDateOpen
      (itemOpen ++ (titleOpen ++ (t ++ (titleClose ++ (linkOpen ++ (l ++
        linkClose)))))) = false := by
    rw [containsSub_tag_skip' (by decide : pubDateOpen = '<' :: 'p' :: ("ubDate>").toList)
      (by decide : itemOpen = '<' :: 'i' :: ("tem>").toList)
      (by decide) (by decide) (by decide)]
    rw [containsSub_tag_skip' (by decide : pubDateOpen = '<' :: 'p' :: ("ubDate>").toList)
      (by decide : titleOpen = '<' :: 't' :: ("itle>").toList)
      (by decide) (by decide) (by decide)]
    rw [containsSub_append_no_lt' (by decide : pubDateOpen = '<' :: ("pubDate>").toList)
      _ ht]
    rw [containsSub_tag_skip' (by decide : pubDateOpen = '<' :: 'p' :: ("ubDate>").toList)
      (by decide : titleClose = '<' :: '/' :: ("title>").toList)
      (by decide) (by decide) (by decide)]
    rw [containsSub_tag_skip' (by decide : pubDateOpen = '<' :: 'p' :: ("ubDate>").toList)
      (by decide : linkOpen = '<' :: 'l' :: ("ink>").toList)
      (by decide) (by decide) (by decide)]
    rw [containsSub_append_no_lt' (by decide : pubDateOpen = '<' :: ("pubDate>").toList)
      linkClose hl]
    decide
  have hdrop : dropThroughInfix pubDateOpen (rssBlockTemplate t l p d)
      = some (p ++ (pubDateClose ++ (descOpen ++ (d ++ (descClose ++
          itemClose))))) := by
    have h := dropThroughInfix_planted' (q := pubDateOpen)
      (by decide : pubDateOpen = '<' :: ("pubDate>").toList) (by decide)
      (itemOpen ++ (titleOpen ++ (t ++ (titleClose ++ (linkOpen ++ (l ++ linkClose))))))
      (p ++ (pubDateClose ++ (descOpen ++ (d ++ (descClose ++ itemClose)))))
      hpre
    unfold rssBlockTemplate
    simpa [List.append_assoc] using h
  have htake : takeUntilInfix pubDateClose
      (p ++ (pubDateClose ++ (descOpen ++ (d ++ (descClose ++ itemClose)))))
      = some p := by
    have h := takeUntilInfix_planted' (q := pubDateClose)
      (by decide : pubDateClose = '<' :: ("/pubDate>").toList) (by decide)
      p
      (descOpen ++ (d ++ (descClose ++ itemClose)))
      (containsSub_no_lt' (by decide : pubDateClose = '<' :: ("/pubDate>").toList) hp)
    simpa [List.append_assoc] using h
  unfold matchBetween
  rw [hdrop, Option.some_bind]
  exact htake

theorem template_desc (t l p d : List Char) (ht : '<' ∉ t) (hl : '<' ∉ l)
    (hp : '<' ∉ p) (hd : containsSub descClose d = false) :
    matchBetween descOpen descClose (rssBlockTemplate t l p d) = some d := by
  have hpre : containsSub descOpen
      (itemOpen ++ (titleOpen ++ (t ++ (titleClose ++ (linkOpen ++ (l ++
        (linkClose ++ (pubDateOpen ++ (p ++ pubDateClose))))))))) = false := by
    rw [containsSub_tag_skip' (by decide : descOpen = '<' :: 'd' :: ("escription>").toList)
      (by decide : itemOpen = '<' :: 'i' :: ("tem>").toList)
      (by decide) (by decide) (by decide)]
    rw [containsSub_tag_skip' (by decide : descOpen = '<' :: 'd' :: ("escription>").toList)
      (by decide : titleOpen = '<' :: 't' :: ("itle>").toList)
      (by decide) (by decide) (by decide)]
    rw [containsSub_append_no_lt' (by decide : descOpen = '<' :: ("description>").toList)
      _ ht]
    rw [containsSub_tag_skip' (by decide : descOpen = '<' :: 'd' :: ("escription>").toList)
      (by decide : titleClose = '<' :: '/' :: ("title>").toList)
      (by decide) (by decide) (by decide)]
    rw [containsSub_tag_skip' (by decide : descOpen = '<' :: 'd' :: ("escription>").toList)
      (by decide : linkOpen = '<' :: 'l' :: ("ink>").toList)
      (by decide) (by decide) (by decide)]
    rw [containsSub_append_no_lt' (by decide : descOpen = '<' :: ("description>").toList)
      _ hl]
    rw [containsSub_tag_skip' (by decide : descOpen = '<' :: 'd' :: ("escription>").toList)
      (by decide : linkClose = '<' :: '/' :: ("link>").toList)
      (by decide) (by decide) (by decide)]
    rw [containsSub_tag_skip' (by decide : descOpen = '<' :: 'd' :: ("escription>").toList)
      (by decide : pubDateOpen = '<' :: 'p' :: ("ubDate>").toList)
      (by decide) (by decide) (by decide)]
    rw [containsSub_append_no_lt' (by decide : descOpen = '<' :: ("description>").toList)
      pubDateClose hp]
    decide
  have hdrop : dropThroughInfix descOpen (rssBlockTemplate t l p d)
      = some (d ++ (descClose ++ itemClose)) := by
    have h := dropThroughInfix_planted' (q := descOpen)
      (by decide : descOpen = '<' :: ("description>").toList) (by decide)
      (itemOpen ++ (titleOpen ++ (t ++ (titleClose ++ (linkOpen ++ (l ++
        (linkClose ++ (pubDateOpen ++ (p ++ pubDateClose)))))))))
      (d ++ (descClose ++ itemClose))
      hpre
    unfold rssBlockTemplate
    simpa [List.append_assoc] using h
  have htake : takeUntilInfix descClose (d ++ (descClose ++ itemClose))
      = some d := by
    have h := takeUntilInfix_planted' (q := descClose)
      (by decide : descClose = '<' :: ("/description>").toList) (by decide)
      d itemClose hd
    simpa [List.append_assoc] using h
  unfold matchBetween
  rw [hdrop, Option.some_bind]
  exact htake

def c9Block : List Char :=
  ("<item><title><![CDATA[Hello]]></title><link>http://e/1</link><pubDate>P</pubDate><description>D</description></item>").toList

/-- C9 counterexample: the claim says the title leaving the parser has any
CDATA wrapper stripped, but on a block whose title is `<![CDATA[Hello]]>`
the per-block extraction keeps the wrapper verbatim (only the description
is CDATA-stripped), so the produced title is not the stripped `Hello`. -/
theorem claim_c9_counterexample :
    (processBlock (fun _ => none) false [] c9Block).map (fun it => it.title)
      = [("<![CDATA[Hello]]>").toList]
    ∧ ("<![CDATA[Hello]]>").toList ≠ ("Hello").toList :=
  ⟨by decide, by decide⟩

/-- C9 amended: for every parsed RSS entry block, the title that leaves the
parser is the trimmed content of the first title tag with the entity
decoder applied but with no CDATA stripping; the entity decoder is applied
to the content as well, and CDATA stripping is applied to the content
only.  (Stated over the canonical block shape, for any tag contents free
of stray markup: `<` may not occur in title/link/pubDate text and the
description may not contain a premature closing tag.) -/
theorem claim_c9_amended (t l p d : List Char)
    (al : List Char → Option (List Char)) (now : List Char)
    (ht : '<' ∉ t) (hl : '<' ∉ l) (hp : '<' ∉ p)
    (hd : containsSub descClose d = false) :
    processBlock al false now (rssBlockTemplate t l p d)
      = splitEntry (trimL t) (trimL l) (trimL p) (cdataStrip (trimL d))
    ∧ (containsSub h3Open (cdataStrip (trimL d)) = false →
        processBlock al false now (rssBlockTemplate t l p d)
          = [{ title := decodeHtmlEntities (trimL t)
               link := trimL l
               description := decodeHtmlEntities (cdataStrip (trimL d))
               pubDate := trimL p }]) := by
  have hmain : processBlock al false now (rssBlockTemplate t l p d)
      = splitEntry (trimL t) (trimL l) (trimL p) (cdataStrip (trimL d)) := by
    unfold processBlock
    rw [template_title t l p d ht, template_link t l p d ht hl,
      template_pubDate t l p d ht hl hp, template_desc t l p d ht hl hp hd]
    rfl
  refine ⟨hmain, fun hq => hmain.trans ?_⟩

  unfold splitEntry
  rw [hq]
  simp

theorem claim_c9_witness :
    processBlock (fun _ => none) false []
      (rssBlockTemplate (("My Title").toList) (("http://w").toList)
        (("Mon").toList) (("Plain text").toList))
      = [{ title := ("My Title").toList, link := ("http://w").toList
           description := ("Plain text").toList, pubDate := ("Mon").toList }] := by
  have h := (claim_c9_amended (("My Title").toList) (("http://w").toList)
    (("Mon").toList) (("Plain text").toList) (fun _ => none) []
    (by decide) (by decide) (by decide) (by decide)).2 (by decide)
  exact h.trans (by decide)

end BrewNews
